import Mathlib

/-!
Verification of the NumberGame rule engine (src/NumberGame.py).

A shared counter starts at 0; two players alternately add an amount chosen by
their strategy; the round ends as soon as the counter reaches or exceeds the
goal, and the winner is the player who made the last move.

Shallow embedding notes:
* Python integers are unbounded, so they are modelled by Int.  The Python
  operator % on a positive modulus agrees with Int's % (Euclidean remainder),
  which is non-negative for a positive modulus.
* Deterministic strategies are modelled as functions
  current -> min_step -> max_step -> goal -> Int, the exact argument order of
  Player.move in the source.  RandomPlayer and UserPlayer draw on ambient
  randomness / console input and are outside the deterministic fragment the
  claims quantify over; any behaviour they can exhibit on a given turn is
  covered by quantifying over the move function.
* The while-loop of NumberGame.play is modelled with explicit fuel
  (playFuel); the loop of the source may genuinely diverge for a strategy
  that never advances the counter, and "play terminates" is rendered as
  "some fuel suffices".
* The print statements in play_one_turn are I/O only and change no state;
  the sequence of printed totals is recovered by totalsFuel.
-/

/-- A player of the game: a display name bound to a move-selection strategy,
exactly the data of the Python Player classes (name plus the move method). -/
structure Player where
  name : String
  move : Int → Int → Int → Int → Int

/-- The game state: the fields of the Python class NumberGame. -/
structure NumberGame where
  goal : Int
  min_step : Int
  max_step : Int
  current : Int
  players : Player × Player
  turn : Int

/-- Construction, from NumberGame.__init__: the arguments are stored verbatim
and current and turn start at 0.  The stated precondition
0 < min_step <= max_step <= goal appears only in the docstring; the source
performs no check. -/
def NumberGame.init (goal min_step max_step : Int)
    (players : Player × Player) : NumberGame :=
  { goal := goal, min_step := min_step, max_step := max_step,
    current := 0, players := players, turn := 0 }

/-- The configuration precondition documented by the source. -/
def validConfig (goal min_step max_step : Int) : Prop :=
  0 < min_step ∧ min_step ≤ max_step ∧ max_step ≤ goal

instance (goal min_step max_step : Int) :
    Decidable (validConfig goal min_step max_step) := by
  unfold validConfig; infer_instance

/-- NumberGame.whose_turn: players[0] on an even turn number, players[1]
on an odd one. -/
def NumberGame.whose_turn (g : NumberGame) (turn : Int) : Player :=
  if turn % 2 = 0 then g.players.1 else g.players.2

/-- NumberGame.play_one_turn: resolve the mover, obtain their move for the
current public state, add it to the counter (unclamped), advance the turn. -/
def NumberGame.play_one_turn (g : NumberGame) : NumberGame :=
  let next_player := g.whose_turn g.turn
  let amount := next_player.move g.current g.min_step g.max_step g.goal
  { g with current := g.current + amount, turn := g.turn + 1 }

/-- NumberGame.play with explicit fuel: iterate play_one_turn while
current < goal; on exit return the name of whose_turn (turn - 1) together
with the final state.  none means the fuel ran out before the loop exited. -/
def NumberGame.playFuel : Nat → NumberGame → Option (String × NumberGame)
  | 0, g =>
      if g.current < g.goal then none
      else some ((g.whose_turn (g.turn - 1)).name, g)
  | n + 1, g =>
      if g.current < g.goal then NumberGame.playFuel n g.play_one_turn
      else some ((g.whose_turn (g.turn - 1)).name, g)

/-- The sequence of totals printed by play_one_turn during a round
(the value of current after each executed turn), up to the given fuel. -/
def NumberGame.totalsFuel : Nat → NumberGame → List Int
  | 0, _ => []
  | n + 1, g =>
      if g.current < g.goal then
        g.play_one_turn.current :: NumberGame.totalsFuel n g.play_one_turn
      else []

/-- StrategicPlayer.move from the source: remaining = goal - current;
take max_step while remaining >= max_step, take min_step when even the
minimum move overshoots, otherwise remaining % (max_step + 1). -/
def strategicMove (current min_step max_step goal : Int) : Int :=
  let remaining := goal - current
  if remaining ≥ max_step then max_step
  else if remaining < min_step then min_step
  else remaining % (max_step + 1)

/-- A StrategicPlayer with the given name. -/
def StrategicPlayer (name : String) : Player :=
  ⟨name, strategicMove⟩

/-- The simple goal-seeking strategy that returns remaining = goal - current,
the strategy the spec compares StrategicPlayer.move against on its final
branch. -/
def simpleRemainingMove (current min_step max_step goal : Int) : Int :=
  goal - current

/-- Claim C1: under a valid configuration, StrategicPlayer.move returns
max_step when remaining >= max_step, min_step when remaining < min_step, and
otherwise remaining % (max_step + 1) with non-negative modulo semantics. -/
theorem strategicMove_cases (current min_step max_step goal : Int)
    (hmin : 0 < min_step) (hmm : min_step ≤ max_step) (hmg : max_step ≤ goal) :
    (goal - current ≥ max_step → strategicMove current min_step max_step goal = max_step) ∧
    (goal - current < min_step → strategicMove current min_step max_step goal = min_step) ∧
    (min_step ≤ goal - current → goal - current < max_step →
      strategicMove current min_step max_step goal = (goal - current) % (max_step + 1) ∧
      0 ≤ (goal - current) % (max_step + 1)) := by
  refine ⟨?_, ?_, ?_⟩
  · intro h
    simp only [strategicMove, if_pos h]
  · intro h
    have h1 : ¬ goal - current ≥ max_step := by omega
    simp only [strategicMove, if_neg h1, if_pos h]
  · intro h1 h2
    have hge : ¬ goal - current ≥ max_step := by omega
    have hlt : ¬ goal - current < min_step := by omega
    refine ⟨by simp only [strategicMove, if_neg hge, if_neg hlt], ?_⟩
    exact Int.emod_nonneg _ (by omega)

theorem strategicMove_cases_witness :
    (0 : Int) < 2 ∧ (2 : Int) ≤ 4 ∧ (4 : Int) ≤ 8 ∧
    ((8 : Int) - 5 ≥ 4 → strategicMove 5 2 4 8 = 4) ∧
    ((8 : Int) - 5 < 2 → strategicMove 5 2 4 8 = 2) ∧
    ((2 : Int) ≤ 8 - 5 → (8 : Int) - 5 < 4 →
      strategicMove 5 2 4 8 = ((8 : Int) - 5) % (4 + 1) ∧
      0 ≤ ((8 : Int) - 5) % (4 + 1)) :=
  ⟨by decide, by decide, by decide,
    (strategicMove_cases 5 2 4 8 (by decide) (by decide) (by decide)).1,
    (strategicMove_cases 5 2 4 8 (by decide) (by decide) (by decide)).2.1,
    (strategicMove_cases 5 2 4 8 (by decide) (by decide) (by decide)).2.2⟩

/-- In the final branch the remainder is the remaining amount itself:
with 0 < min_step ≤ remaining < max_step we have
remaining % (max_step + 1) = remaining. -/
theorem strategicMove_final_branch_eq (current min_step max_step goal : Int)
    (hmin : 0 < min_step) (h1 : min_step ≤ goal - current)
    (h2 : goal - current < max_step) :
    strategicMove current min_step max_step goal = goal - current := by
  have hge : ¬ goal - current ≥ max_step := by omega
  have hlt : ¬ goal - current < min_step := by omega
  simp only [strategicMove, if_neg hge, if_neg hlt]
  exact Int.emod_eq_of_lt (by omega) (by omega)

/-- Claim C5 counterexample (the claim is false): there is no input with a
valid configuration in the final branch on which StrategicPlayer.move
returns a value outside [min_step, max_step]; in that branch
remaining % (max_step + 1) = remaining ≥ min_step always holds. -/
theorem no_out_of_range_strategicMove :
    ¬ ∃ current min_step max_step goal : Int,
      0 < min_step ∧ min_step ≤ max_step ∧ max_step ≤ goal ∧
      min_step ≤ goal - current ∧ goal - current < max_step ∧
      (strategicMove current min_step max_step goal < min_step ∨
       max_step < strategicMove current min_step max_step goal) := by
  rintro ⟨c, mi, ma, go, hmin, _, _, h1, h2, hbad⟩
  rw [strategicMove_final_branch_eq c mi ma go hmin h1 h2] at hbad
  omega

/-- Claim C5 amended: on the final branch (valid configuration,
min_step ≤ remaining < max_step) the returned value equals remaining and
always lies inside [min_step, max_step]; the case
remaining % (max_step + 1) < min_step flagged by the spec never occurs. -/
theorem strategicMove_final_branch_in_range
    (current min_step max_step goal : Int)
    (hmin : 0 < min_step) (hmm : min_step ≤ max_step) (hmg : max_step ≤ goal)
    (h1 : min_step ≤ goal - current) (h2 : goal - current < max_step) :
    min_step ≤ strategicMove current min_step max_step goal ∧
    strategicMove current min_step max_step goal ≤ max_step ∧
    ¬ strategicMove current min_step max_step goal < min_step := by
  rw [strategicMove_final_branch_eq current min_step max_step goal hmin h1 h2]
  omega

theorem strategicMove_final_branch_in_range_witness :
    ((0 : Int) < 2 ∧ (2 : Int) ≤ 4 ∧ (4 : Int) ≤ 8 ∧
      (2 : Int) ≤ 8 - 5 ∧ (8 : Int) - 5 < 4) ∧
    ((2 : Int) ≤ strategicMove 5 2 4 8 ∧ strategicMove 5 2 4 8 ≤ 4 ∧
      ¬ strategicMove 5 2 4 8 < 2) :=
  ⟨by decide,
    strategicMove_final_branch_in_range 5 2 4 8
      (by decide) (by decide) (by decide) (by decide) (by decide)⟩

/-- Claim C10: on the final branch StrategicPlayer.move agrees with the
simple strategy returning remaining = goal - current, and under the
valid-configuration precondition the returned value always lies in
[min_step, max_step], whatever the branch. -/
theorem strategicMove_refines_simple (current min_step max_step goal : Int)
    (hmin : 0 < min_step) (hmm : min_step ≤ max_step) (hmg : max_step ≤ goal) :
    ((min_step ≤ goal - current ∧ goal - current < max_step) →
      strategicMove current min_step max_step goal =
        simpleRemainingMove current min_step max_step goal) ∧
    min_step ≤ strategicMove current min_step max_step goal ∧
    strategicMove current min_step max_step goal ≤ max_step := by
  constructor
  · rintro ⟨h1, h2⟩
    rw [strategicMove_final_branch_eq current min_step max_step goal hmin h1 h2]
    rfl
  · by_cases hge : goal - current ≥ max_step
    · simp only [strategicMove, if_pos hge]
      omega
    · by_cases hlt : goal - current < min_step
      · simp only [strategicMove, if_neg hge, if_pos hlt]
        omega
      · rw [strategicMove_final_branch_eq current min_step max_step goal hmin
          (by omega) (by omega)]
        omega

theorem strategicMove_refines_simple_witness :
    ((0 : Int) < 2 ∧ (2 : Int) ≤ 4 ∧ (4 : Int) ≤ 8) ∧
    (((2 : Int) ≤ 8 - 5 ∧ (8 : Int) - 5 < 4) →
      strategicMove 5 2 4 8 = simpleRemainingMove 5 2 4 8) ∧
    (2 : Int) ≤ strategicMove 5 2 4 8 ∧ strategicMove 5 2 4 8 ≤ 4 :=
  ⟨by decide, strategicMove_refines_simple 5 2 4 8 (by decide) (by decide) (by decide)⟩

/-- A concrete session: goal 7, steps forced to 3, both players strategic
(scenario B of the spec). -/
def demoGame : NumberGame :=
  NumberGame.init 7 3 3 (StrategicPlayer "A", StrategicPlayer "B")

/-- The state of demoGame after its three moves 3, 3, 3. -/
def demoFinal : NumberGame :=
  { goal := 7, min_step := 3, max_step := 3, current := 9,
    players := (StrategicPlayer "A", StrategicPlayer "B"), turn := 3 }

/-- Claim C6: whose_turn returns players[0] exactly on even turn numbers and
players[1] on odd ones (the iff form as soon as the two players are
distinguishable), and the result depends only on the parity of the turn
number and on the players pair, not on current, goal or the step bounds. -/
theorem whose_turn_parity (g : NumberGame) (t : Int) (ht : 0 ≤ t) :
    (t % 2 = 0 → g.whose_turn t = g.players.1) ∧
    (¬ t % 2 = 0 → g.whose_turn t = g.players.2) ∧
    (g.players.1 ≠ g.players.2 → (g.whose_turn t = g.players.1 ↔ t % 2 = 0)) ∧
    (∀ g' : NumberGame, g'.players = g.players → g'.whose_turn t = g.whose_turn t) := by
  refine ⟨?_, ?_, ?_, ?_⟩
  · intro h; simp only [NumberGame.whose_turn, if_pos h]
  · intro h; simp only [NumberGame.whose_turn, if_neg h]
  · intro hne
    constructor
    · intro heq
      by_contra hodd
      rw [NumberGame.whose_turn, if_neg hodd] at heq
      exact hne heq.symm
    · intro h; simp only [NumberGame.whose_turn, if_pos h]
  · intro g' hp
    simp only [NumberGame.whose_turn, hp]

theorem whose_turn_parity_witness :
    (0 : Int) ≤ 3 ∧
    (((3 : Int) % 2 = 0 → demoGame.whose_turn 3 = demoGame.players.1) ∧
     (¬ (3 : Int) % 2 = 0 → demoGame.whose_turn 3 = demoGame.players.2) ∧
     (demoGame.players.1 ≠ demoGame.players.2 →
       (demoGame.whose_turn 3 = demoGame.players.1 ↔ (3 : Int) % 2 = 0)) ∧
     (∀ g' : NumberGame, g'.players = demoGame.players →
       g'.whose_turn 3 = demoGame.whose_turn 3)) :=
  ⟨by decide, whose_turn_parity demoGame 3 (by decide)⟩

/-- Claim C9: one turn leaves goal, min_step, max_step and the players pair
unchanged, adds exactly the mover's returned amount to current with no
clamping, and increments turn by exactly 1. -/
theorem play_one_turn_frame (g : NumberGame) :
    g.play_one_turn.goal = g.goal ∧
    g.play_one_turn.min_step = g.min_step ∧
    g.play_one_turn.max_step = g.max_step ∧
    g.play_one_turn.players = g.players ∧
    g.play_one_turn.current =
      g.current + (g.whose_turn g.turn).move g.current g.min_step g.max_step g.goal ∧
    g.play_one_turn.turn = g.turn + 1 :=
  ⟨rfl, rfl, rfl, rfl, rfl, rfl⟩

/-- Claim C4 counterexample (the claim is false): the triple
goal = 5, min_step = 0, max_step = 3 violates the configuration
precondition, yet NumberGame.__init__ succeeds and stores it verbatim;
the source performs no validation. -/
theorem init_accepts_invalid_config :
    ¬ validConfig 5 0 3 ∧
    NumberGame.init 5 0 3 (StrategicPlayer "A", StrategicPlayer "B") =
      { goal := 5, min_step := 0, max_step := 3, current := 0,
        players := (StrategicPlayer "A", StrategicPlayer "B"), turn := 0 } :=
  ⟨by decide, rfl⟩

/-- Claim C4 amended: NumberGame.__init__ performs no validation at all; for
every integer triple, valid or not, construction succeeds and stores the
arguments verbatim with current = 0 and turn = 0.  The precondition
0 < min_step <= max_step <= goal lives only in the docstring and is the
caller's obligation. -/
theorem init_stores_fields_unchecked (goal min_step max_step : Int)
    (players : Player × Player) :
    (NumberGame.init goal min_step max_step players).goal = goal ∧
    (NumberGame.init goal min_step max_step players).min_step = min_step ∧
    (NumberGame.init goal min_step max_step players).max_step = max_step ∧
    (NumberGame.init goal min_step max_step players).players = players ∧
    (NumberGame.init goal min_step max_step players).current = 0 ∧
    (NumberGame.init goal min_step max_step players).turn = 0 :=
  ⟨rfl, rfl, rfl, rfl, rfl, rfl⟩

/-- Claim C7: scenario B.  With goal 7 and both steps forced to 3 the fresh
session runs totals 3, 6, 9; the round is not over after two moves, ends
after the third move with current 9 strictly above the goal 7, the final
turn counter is 3, the mover of turn index 2 = players[0] is the winner and
the returned name is players[0]'s name. -/
theorem scenario_b_totals_and_winner :
    NumberGame.totalsFuel 4 demoGame = [3, 6, 9] ∧
    NumberGame.playFuel 2 demoGame = none ∧
    NumberGame.playFuel 3 demoGame = some ((StrategicPlayer "A").name, demoFinal) ∧
    demoFinal.current = 9 ∧ demoFinal.goal = 7 ∧
    demoFinal.goal < demoFinal.current ∧
    demoFinal.turn = 3 ∧
    demoFinal.whose_turn (demoFinal.turn - 1) = demoGame.players.1 ∧
    (StrategicPlayer "A").name = "A" :=
  ⟨rfl, rfl, rfl, rfl, rfl, by decide, rfl, rfl, rfl⟩

/-- Unfolding of playFuel at fuel 0. -/
theorem playFuel_zero (g : NumberGame) :
    NumberGame.playFuel 0 g =
      if g.current < g.goal then none
      else some ((g.whose_turn (g.turn - 1)).name, g) := rfl

/-- Unfolding of playFuel at successor fuel. -/
theorem playFuel_succ (n : Nat) (g : NumberGame) :
    NumberGame.playFuel (n + 1) g =
      if g.current < g.goal then NumberGame.playFuel n g.play_one_turn
      else some ((g.whose_turn (g.turn - 1)).name, g) := rfl

/-- Unfolding of totalsFuel at fuel 0. -/
theorem totalsFuel_zero (g : NumberGame) :
    NumberGame.totalsFuel 0 g = [] := rfl

/-- Unfolding of totalsFuel at successor fuel. -/
theorem totalsFuel_succ (n : Nat) (g : NumberGame) :
    NumberGame.totalsFuel (n + 1) g =
      if g.current < g.goal then
        g.play_one_turn.current :: NumberGame.totalsFuel n g.play_one_turn
      else [] := rfl

/-- Once the loop condition fails, every fuel returns the same winner pair. -/
theorem playFuel_of_done (m : Nat) (g : NumberGame) (hc : ¬ g.current < g.goal) :
    NumberGame.playFuel m g = some ((g.whose_turn (g.turn - 1)).name, g) := by
  cases m with
  | zero => rw [playFuel_zero, if_neg hc]
  | succ m => rw [playFuel_succ, if_neg hc]

/-- Iterating play_one_turn preserves the configuration and the players and
advances turn by the number of iterations. -/
theorem iterate_play_one_turn_frame (k : Nat) : ∀ g : NumberGame,
    (NumberGame.play_one_turn^[k] g).goal = g.goal ∧
    (NumberGame.play_one_turn^[k] g).min_step = g.min_step ∧
    (NumberGame.play_one_turn^[k] g).max_step = g.max_step ∧
    (NumberGame.play_one_turn^[k] g).players = g.players ∧
    (NumberGame.play_one_turn^[k] g).turn = g.turn + k := by
  induction k with
  | zero =>
    intro g
    exact ⟨rfl, rfl, rfl, rfl, by simp⟩
  | succ k ih =>
    intro g
    rw [Function.iterate_succ_apply]
    obtain ⟨h1, h2, h3, h4, h5⟩ := ih g.play_one_turn
    refine ⟨h1, h2, h3, h4, ?_⟩
    rw [h5]
    have : g.play_one_turn.turn = g.turn + 1 := rfl
    omega

/-- whose_turn depends only on the players pair. -/
theorem whose_turn_congr (g h : NumberGame) (t : Int)
    (hp : g.players = h.players) : g.whose_turn t = h.whose_turn t := by
  simp only [NumberGame.whose_turn, hp]

/-- A successful playFuel run is an iteration of play_one_turn that ran
exactly while current < goal and returned whose_turn (turn - 1). -/
theorem playFuel_spec (n : Nat) : ∀ (g : NumberGame) (w : String) (g' : NumberGame),
    NumberGame.playFuel n g = some (w, g') →
    ∃ k : Nat, k ≤ n ∧ g' = NumberGame.play_one_turn^[k] g ∧
      (∀ j : Nat, j < k → (NumberGame.play_one_turn^[j] g).current <
          (NumberGame.play_one_turn^[j] g).goal) ∧
      ¬ g'.current < g'.goal ∧
      w = (g'.whose_turn (g'.turn - 1)).name := by
  induction n with
  | zero =>
    intro g w g' h
    rw [playFuel_zero] at h
    by_cases hc : g.current < g.goal
    · rw [if_pos hc] at h; exact absurd h (by simp)
    · rw [if_neg hc] at h
      rw [Option.some.injEq, Prod.mk.injEq] at h
      obtain ⟨hw, hg⟩ := h
      subst hg
      exact ⟨0, Nat.le_refl 0, rfl, fun j hj => absurd hj (by omega), hc, hw.symm⟩
  | succ n ih =>
    intro g w g' h
    rw [playFuel_succ] at h
    by_cases hc : g.current < g.goal
    · rw [if_pos hc] at h
      obtain ⟨k, hk, hg', hall, hend, hw⟩ := ih g.play_one_turn w g' h
      refine ⟨k + 1, by omega, ?_, ?_, hend, hw⟩
      · rw [Function.iterate_succ_apply]; exact hg'
      · intro j hj
        cases j with
        | zero => simpa using hc
        | succ j =>
          rw [Function.iterate_succ_apply]
          exact hall j (by omega)
    · rw [if_neg hc] at h
      rw [Option.some.injEq, Prod.mk.injEq] at h
      obtain ⟨hw, hg⟩ := h
      subst hg
      exact ⟨0, Nat.zero_le _, rfl, fun j hj => absurd hj (by omega), hc, hw.symm⟩

/-- Claim C2: on a fresh valid session, a completed round is exactly the
iteration of play_one_turn while current < goal; at the end current has
reached or passed goal (overshoot allowed), turn counts the moves made, and
the returned name is whose_turn (turn - 1), which is the mover of the last
executed turn — the player whose move made current reach or exceed goal. -/
theorem play_winner_is_previous_mover (goal min_step max_step : Int)
    (p q : Player) (hval : validConfig goal min_step max_step)
    (n : Nat) (w : String) (g' : NumberGame)
    (hrun : NumberGame.playFuel n
        (NumberGame.init goal min_step max_step (p, q)) = some (w, g')) :
    ∃ k : Nat, 0 < k ∧
      g' = NumberGame.play_one_turn^[k] (NumberGame.init goal min_step max_step (p, q)) ∧
      (∀ j : Nat, j < k →
        (NumberGame.play_one_turn^[j]
          (NumberGame.init goal min_step max_step (p, q))).current < goal) ∧
      goal ≤ g'.current ∧
      g'.turn = (k : Int) ∧
      w = (g'.whose_turn (g'.turn - 1)).name ∧
      w = ((NumberGame.play_one_turn^[k - 1]
              (NumberGame.init goal min_step max_step (p, q))).whose_turn
            ((NumberGame.play_one_turn^[k - 1]
              (NumberGame.init goal min_step max_step (p, q))).turn)).name := by
  obtain ⟨hmin, hmm, hmg⟩ := hval
  obtain ⟨k, hk, hg', hall, hend, hw⟩ := playFuel_spec n _ w g' hrun
  have hframe := fun j => iterate_play_one_turn_frame j
    (NumberGame.init goal min_step max_step (p, q))
  have hgoal' : g'.goal = goal := by rw [hg']; exact (hframe k).1
  have hturn' : g'.turn = (k : Int) := by
    rw [hg']
    have := (hframe k).2.2.2.2
    simpa [NumberGame.init] using this
  have hpl' : g'.players = (p, q) := by rw [hg']; exact (hframe k).2.2.2.1
  have hkpos : 0 < k := by
    by_contra hk0
    have hk0' : k = 0 := by omega
    subst hk0'
    have : g' = NumberGame.init goal min_step max_step (p, q) := by
      rw [hg']; rfl
    rw [this] at hend
    exact hend (by show (0 : Int) < goal; omega)
  refine ⟨k, hkpos, hg', ?_, ?_, hturn', hw, ?_⟩
  · intro j hj
    have := hall j hj
    rwa [(hframe j).1] at this
  · rw [← hgoal']
    omega
  · rw [hw]
    have hplk : (NumberGame.play_one_turn^[k - 1]
        (NumberGame.init goal min_step max_step (p, q))).players = (p, q) :=
      (hframe (k - 1)).2.2.2.1
    have hturnk : (NumberGame.play_one_turn^[k - 1]
        (NumberGame.init goal min_step max_step (p, q))).turn = ((k - 1 : Nat) : Int) := by
      have := (hframe (k - 1)).2.2.2.2
      simpa [NumberGame.init] using this
    have heqt : g'.turn - 1 = ((k - 1 : Nat) : Int) := by
      rw [hturn']; omega
    rw [heqt, ← hturnk]
    exact congrArg Player.name
      (whose_turn_congr _ _ _ (hpl'.trans hplk.symm))

theorem play_winner_is_previous_mover_witness :
    validConfig 7 3 3 ∧
    NumberGame.playFuel 3 (NumberGame.init 7 3 3
      (StrategicPlayer "A", StrategicPlayer "B")) = some ("A", demoFinal) ∧
    (∃ k : Nat, 0 < k ∧
      demoFinal = NumberGame.play_one_turn^[k]
        (NumberGame.init 7 3 3 (StrategicPlayer "A", StrategicPlayer "B")) ∧
      (∀ j : Nat, j < k →
        (NumberGame.play_one_turn^[j]
          (NumberGame.init 7 3 3 (StrategicPlayer "A", StrategicPlayer "B"))).current < 7) ∧
      (7 : Int) ≤ demoFinal.current ∧
      demoFinal.turn = (k : Int) ∧
      "A" = (demoFinal.whose_turn (demoFinal.turn - 1)).name ∧
      "A" = ((NumberGame.play_one_turn^[k - 1]
              (NumberGame.init 7 3 3 (StrategicPlayer "A", StrategicPlayer "B"))).whose_turn
            ((NumberGame.play_one_turn^[k - 1]
              (NumberGame.init 7 3 3 (StrategicPlayer "A", StrategicPlayer "B"))).turn)).name) :=
  ⟨by decide, rfl,
    play_winner_is_previous_mover 7 3 3 (StrategicPlayer "A") (StrategicPlayer "B")
      (by decide) 3 "A" demoFinal rfl⟩

/-- A deterministic strategy that never advances the counter: move is 0. -/
def zeroPlayer : Player :=
  ⟨"Z", fun _ _ _ _ => 0⟩

/-- With two zero-move players the loop condition never changes: play never
completes, for any amount of fuel. -/
theorem playFuel_zero_strategy_none (n : Nat) : ∀ g : NumberGame,
    g.players = (zeroPlayer, zeroPlayer) → g.current < g.goal →
    NumberGame.playFuel n g = none := by
  induction n with
  | zero =>
    intro g hp hc
    rw [playFuel_zero, if_pos hc]
  | succ n ih =>
    intro g hp hc
    rw [playFuel_succ, if_pos hc]
    have h1 : g.players.1 = zeroPlayer := by rw [hp]
    have h2 : g.players.2 = zeroPlayer := by rw [hp]
    have hamt : (g.whose_turn g.turn).move g.current g.min_step g.max_step g.goal = 0 := by
      unfold NumberGame.whose_turn
      split
      · rw [h1]
        rfl
      · rw [h2]
        rfl
    have hcur : g.play_one_turn.current = g.current := by
      show g.current + (g.whose_turn g.turn).move g.current g.min_step g.max_step g.goal
        = g.current
      rw [hamt, add_zero]
    apply ih
    · exact hp
    · show g.play_one_turn.current < g.play_one_turn.goal
      rw [hcur]
      exact hc

/-- Claim C3 counterexample (the claim is false as stated): the configuration
goal = 1, min_step = 1, max_step = 1 is valid and the zero-move strategy pair
is deterministic, yet play never terminates: no fuel makes playFuel return a
result on the fresh session. -/
theorem play_diverges_for_zero_strategy :
    validConfig 1 1 1 ∧
    ¬ ∃ (n : Nat) (w : String) (g' : NumberGame),
      NumberGame.playFuel n (NumberGame.init 1 1 1 (zeroPlayer, zeroPlayer)) =
        some (w, g') := by
  refine ⟨by decide, ?_⟩
  rintro ⟨n, w, g', h⟩
  rw [playFuel_zero_strategy_none n _ rfl (by decide)] at h
  exact Option.noConfusion h

/-- If both players always move at least min_step, enough fuel finishes the
round: fuel k suffices once goal - current ≤ k * min_step, and the final
turn counter grows by at most k. -/
theorem playFuel_of_progress (k : Nat) : ∀ g : NumberGame,
    (∀ c go : Int, g.min_step ≤ g.players.1.move c g.min_step g.max_step go) →
    (∀ c go : Int, g.min_step ≤ g.players.2.move c g.min_step g.max_step go) →
    g.goal - g.current ≤ (k : Int) * g.min_step →
    ∃ w g', NumberGame.playFuel k g = some (w, g') ∧ g'.turn ≤ g.turn + k := by
  induction k with
  | zero =>
    intro g hp hq hk
    rw [Nat.cast_zero, zero_mul] at hk
    have hc : ¬ g.current < g.goal := by omega
    exact ⟨_, g, by rw [playFuel_zero, if_neg hc], by omega⟩
  | succ k ih =>
    intro g hp hq hk
    by_cases hc : g.current < g.goal
    · have hamt : g.min_step ≤
          (g.whose_turn g.turn).move g.current g.min_step g.max_step g.goal := by
        unfold NumberGame.whose_turn
        split
        · exact hp g.current g.goal
        · exact hq g.current g.goal
      have hp' : ∀ c go : Int, g.play_one_turn.min_step ≤
          g.play_one_turn.players.1.move c g.play_one_turn.min_step
            g.play_one_turn.max_step go := hp
      have hq' : ∀ c go : Int, g.play_one_turn.min_step ≤
          g.play_one_turn.players.2.move c g.play_one_turn.min_step
            g.play_one_turn.max_step go := hq
      have hk' : g.play_one_turn.goal - g.play_one_turn.current ≤
          (k : Int) * g.play_one_turn.min_step := by
        have hcur : g.play_one_turn.current = g.current +
            (g.whose_turn g.turn).move g.current g.min_step g.max_step g.goal := rfl
        have hgl : g.play_one_turn.goal = g.goal := rfl
        have hms : g.play_one_turn.min_step = g.min_step := rfl
        rw [hcur, hgl, hms]
        have hexp : ((k : Int) + 1) * g.min_step = (k : Int) * g.min_step + g.min_step := by
          ring
        have hk2 : g.goal - g.current ≤ (k : Int) * g.min_step + g.min_step := by
          rw [← hexp]
          have : ((k + 1 : Nat) : Int) = (k : Int) + 1 := by push_cast; ring
          rw [← this]
          exact hk
        linarith
      obtain ⟨w, g', hrun, hturn⟩ := ih g.play_one_turn hp' hq' hk'
      refine ⟨w, g', ?_, ?_⟩
      · rw [playFuel_succ, if_pos hc]
        exact hrun
      · have ht1 : g.play_one_turn.turn = g.turn + 1 := rfl
        rw [ht1] at hturn
        omega
    · exact ⟨_, g, by rw [playFuel_succ, if_neg hc], by omega⟩

/-- Claim C3 amended: for every valid configuration and every pair of
deterministic strategies whose moves are always at least min_step (in
particular every strategy whose moves are legal), play terminates, and the
number of turns in the round is at most ceil(goal / min_step) — computed on
integers as (goal + min_step - 1) / min_step — hence also at most
ceil(goal / min_step) + 1 as the claim states. -/
theorem play_terminates_bounded (goal min_step max_step : Int) (p q : Player)
    (hval : validConfig goal min_step max_step)
    (hp : ∀ c go : Int, min_step ≤ p.move c min_step max_step go)
    (hq : ∀ c go : Int, min_step ≤ q.move c min_step max_step go) :
    ∃ (n : Nat) (w : String) (g' : NumberGame),
      NumberGame.playFuel n (NumberGame.init goal min_step max_step (p, q)) =
        some (w, g') ∧
      g'.turn ≤ (goal + min_step - 1) / min_step ∧
      g'.turn ≤ (goal + min_step - 1) / min_step + 1 := by
  obtain ⟨hmin, hmm, hmg⟩ := hval
  have hK0 : 0 ≤ (goal + min_step - 1) / min_step :=
    Int.ediv_nonneg (by omega) (by omega)
  have hKmul : goal ≤ ((goal + min_step - 1) / min_step) * min_step := by
    have h1 := Int.ediv_add_emod (goal + min_step - 1) min_step
    have h2 : 0 ≤ (goal + min_step - 1) % min_step := Int.emod_nonneg _ (by omega)
    have h3 : (goal + min_step - 1) % min_step < min_step :=
      Int.emod_lt_of_pos _ (by omega)
    have h4 : ((goal + min_step - 1) / min_step) * min_step =
        min_step * ((goal + min_step - 1) / min_step) := by ring
    linarith
  have hcast : ((((goal + min_step - 1) / min_step).toNat : Nat) : Int) =
      (goal + min_step - 1) / min_step := Int.toNat_of_nonneg hK0
  have hside : (NumberGame.init goal min_step max_step (p, q)).goal -
      (NumberGame.init goal min_step max_step (p, q)).current ≤
      ((((goal + min_step - 1) / min_step).toNat : Nat) : Int) *
        (NumberGame.init goal min_step max_step (p, q)).min_step := by
    show goal - (0 : Int) ≤
      ((((goal + min_step - 1) / min_step).toNat : Nat) : Int) * min_step
    rw [hcast]
    linarith
  obtain ⟨w, g', hrun, hturn⟩ :=
    playFuel_of_progress ((goal + min_step - 1) / min_step).toNat
      (NumberGame.init goal min_step max_step (p, q)) hp hq hside
  refine ⟨_, w, g', hrun, ?_, ?_⟩
  · have ht0 : (NumberGame.init goal min_step max_step (p, q)).turn = 0 := rfl
    rw [ht0] at hturn
    omega
  · have ht0 : (NumberGame.init goal min_step max_step (p, q)).turn = 0 := rfl
    rw [ht0] at hturn
    omega

/-- A deterministic strategy that always moves exactly 3. -/
def constThreePlayer : Player :=
  ⟨"C", fun _ _ _ _ => 3⟩

theorem play_terminates_bounded_witness :
    validConfig 7 3 3 ∧
    (∀ c go : Int, (3 : Int) ≤ constThreePlayer.move c 3 3 go) ∧
    ∃ (n : Nat) (w : String) (g' : NumberGame),
      NumberGame.playFuel n (NumberGame.init 7 3 3
        (constThreePlayer, constThreePlayer)) = some (w, g') ∧
      g'.turn ≤ ((7 : Int) + 3 - 1) / 3 ∧
      g'.turn ≤ ((7 : Int) + 3 - 1) / 3 + 1 :=
  ⟨by decide, fun _ _ => le_refl 3,
    play_terminates_bounded 7 3 3 constThreePlayer constThreePlayer
      (by decide) (fun _ _ => le_refl 3) (fun _ _ => le_refl 3)⟩

/-- playFuel is deterministic in its fuel: any two successful runs from the
same state return the same winner and final state. -/
theorem playFuel_det (n : Nat) : ∀ (m : Nat) (g : NumberGame)
    (r r' : String × NumberGame),
    NumberGame.playFuel n g = some r → NumberGame.playFuel m g = some r' →
    r = r' := by
  induction n with
  | zero =>
    intro m g r r' h1 h2
    rw [playFuel_zero] at h1
    by_cases hc : g.current < g.goal
    · rw [if_pos hc] at h1
      exact absurd h1 (by simp)
    · rw [if_neg hc] at h1
      rw [playFuel_of_done m g hc] at h2
      exact (Option.some.inj h1).symm.trans (Option.some.inj h2)
  | succ n ih =>
    intro m g r r' h1 h2
    rw [playFuel_succ] at h1
    by_cases hc : g.current < g.goal
    · rw [if_pos hc] at h1
      cases m with
      | zero =>
        rw [playFuel_zero, if_pos hc] at h2
        exact absurd h2 (by simp)
      | succ m =>
        rw [playFuel_succ, if_pos hc] at h2
        exact ih m g.play_one_turn r r' h1 h2
    · rw [if_neg hc] at h1
      rw [playFuel_of_done m g hc] at h2
      exact (Option.some.inj h1).symm.trans (Option.some.inj h2)

/-- The printed totals of two successful runs from the same state agree,
whatever fuel each run was given. -/
theorem totalsFuel_det (n : Nat) : ∀ (m : Nat) (g : NumberGame)
    (r r' : String × NumberGame),
    NumberGame.playFuel n g = some r → NumberGame.playFuel m g = some r' →
    NumberGame.totalsFuel n g = NumberGame.totalsFuel m g := by
  induction n with
  | zero =>
    intro m g r r' h1 h2
    rw [playFuel_zero] at h1
    by_cases hc : g.current < g.goal
    · rw [if_pos hc] at h1
      exact absurd h1 (by simp)
    · rw [totalsFuel_zero]
      cases m with
      | zero => rw [totalsFuel_zero]
      | succ m => rw [totalsFuel_succ, if_neg hc]
  | succ n ih =>
    intro m g r r' h1 h2
    rw [playFuel_succ] at h1
    by_cases hc : g.current < g.goal
    · rw [if_pos hc] at h1
      cases m with
      | zero =>
        rw [playFuel_zero, if_pos hc] at h2
        exact absurd h2 (by simp)
      | succ m =>
        rw [playFuel_succ, if_pos hc] at h2
        rw [totalsFuel_succ, totalsFuel_succ, if_pos hc, if_pos hc,
          ih m g.play_one_turn r r' h1 h2]
    · rw [totalsFuel_succ, if_neg hc]
      cases m with
      | zero => rw [totalsFuel_zero]
      | succ m => rw [totalsFuel_succ, if_neg hc]

/-- Claim C8: two completed rounds on freshly constructed sessions with the
same valid configuration and the same two players produce the same winner
name, the same final state, and the same sequence of turn-by-turn totals. -/
theorem play_round_trip_deterministic (goal min_step max_step : Int)
    (p q : Player) (hval : validConfig goal min_step max_step)
    (n m : Nat) (w1 w2 : String) (g1 g2 : NumberGame)
    (h1 : NumberGame.playFuel n (NumberGame.init goal min_step max_step (p, q)) =
      some (w1, g1))
    (h2 : NumberGame.playFuel m (NumberGame.init goal min_step max_step (p, q)) =
      some (w2, g2)) :
    w1 = w2 ∧ g1 = g2 ∧
    NumberGame.totalsFuel n (NumberGame.init goal min_step max_step (p, q)) =
      NumberGame.totalsFuel m (NumberGame.init goal min_step max_step (p, q)) := by
  have hdet := playFuel_det n m _ (w1, g1) (w2, g2) h1 h2
  rw [Prod.mk.injEq] at hdet
  exact ⟨hdet.1, hdet.2, totalsFuel_det n m _ (w1, g1) (w2, g2) h1 h2⟩

theorem play_round_trip_deterministic_witness :
    validConfig 7 3 3 ∧
    NumberGame.playFuel 3 (NumberGame.init 7 3 3
      (StrategicPlayer "A", StrategicPlayer "B")) = some ("A", demoFinal) ∧
    NumberGame.playFuel 5 (NumberGame.init 7 3 3
      (StrategicPlayer "A", StrategicPlayer "B")) = some ("A", demoFinal) ∧
    ("A" = "A" ∧ demoFinal = demoFinal ∧
      NumberGame.totalsFuel 3 (NumberGame.init 7 3 3
        (StrategicPlayer "A", StrategicPlayer "B")) =
      NumberGame.totalsFuel 5 (NumberGame.init 7 3 3
        (StrategicPlayer "A", StrategicPlayer "B"))) :=
  ⟨by decide, rfl, rfl,
    play_round_trip_deterministic 7 3 3 (StrategicPlayer "A") (StrategicPlayer "B")
      (by decide) 3 5 "A" "A" demoFinal demoFinal rfl rfl⟩
